import Mathlib

/-!
# Verification of the Orkflow core against its specification

This file gives a shallow embedding, in Lean 4, of the parts of the Orkflow
repository (a Go declarative orchestrator for multi-agent LLM workflows) that
the specification's claims are about:

* the tag-based message protocol (internal/agent/message_parser.go),
* the pub/sub message channel (internal/memory, MessageChannel),
* the configuration validator (internal/parser/validate.go),
* the single-shot agent runner (internal/agent, Runner.RunAgent),
* the collaborative turn loop (internal/agent, Runner.RunCollaborativeAgent).

Modelling conventions:

* Go strings are modelled as lists of characters (`Str := List Char`); Go
  iterates runes when matching patterns, so a rune list is the faithful view.
* The Go regular expressions are three fixed patterns.  For each of them the
  only regex operators used (`\s+`, `[^"]+`, lazy `(.*?)` before a literal
  closing tag, `\s*`) are deterministic at any given start position, so each
  pattern is embedded as a direct deterministic scanner; the global scan that
  Go performs (leftmost match, resume after the match end) is embedded as a
  fuel-indexed recursion where fuel equal to the input length always suffices
  because every match consumes at least one character.
* Go channel buffers are bounded FIFO queues; a subscriber inbox is a queue
  plus a unique creation token so that close events on distinct inbox objects
  can be told apart.
* The non-blocking send (a select with a default branch) is modelled
  by a total function that drops the message when the queue is full: the
  sending function always returns, which is the meaning of "the sender is
  never blocked".
* Wall-clock timestamps are an opaque `Nat` supplied by the caller.
* The LLM client is, per the specification, an external capability
  `Generate(prompt) -> (text, error)`; the collaborative loop is therefore
  parametrised by an oracle giving the outcome of the n-th Generate call.
  Since the prompt built by the loop contains the turn number, any
  prompt-deterministic client induces such a turn-indexed oracle, so the
  parametrisation is faithful.
-/

namespace Orkflow

/-- Go strings, viewed as their rune sequence. -/
abbrev Str := List Char

/-- The double-quote character (written via its code point to keep source
literals simple). -/
def qc : Char := Char.ofNat 34

/-- Whitespace as matched by the RE2 character class in the Go patterns:
in RE2, a Perl whitespace class matches exactly tab, newline, form feed,
carriage return and space. -/
def isRE2Space (c : Char) : Bool :=
  c = ' ' || c = '\t' || c = '\n' || c = '\x0c' || c = '\r'

/-- Whitespace as decided by Go unicode.IsSpace, used by strings.TrimSpace:
the ASCII whitespace runes plus NEL, NBSP and the Unicode space separators. -/
def goIsSpace (c : Char) : Bool :=
  c = ' ' || c = '\t' || c = '\n' || c = '\x0b' || c = '\x0c' || c = '\r' ||
  c.val = 0x85 || c.val = 0xA0 || c.val = 0x1680 ||
  (0x2000 ≤ c.val && c.val ≤ 0x200A) ||
  c.val = 0x2028 || c.val = 0x2029 || c.val = 0x202F ||
  c.val = 0x205F || c.val = 0x3000

/-- Remove trailing Go whitespace (the right half of strings.TrimSpace). -/
def trimRight (s : Str) : Str :=
  s.rdropWhile goIsSpace

/-- strings.TrimSpace: remove leading and trailing Go whitespace. -/
def goTrim (s : Str) : Str :=
  (trimRight s).dropWhile goIsSpace

/-- Appending trailing whitespace does not change the right trim. -/
theorem trimRight_append_space {s sp : Str} (h : ∀ c ∈ sp, goIsSpace c = true) :
    trimRight (s ++ sp) = trimRight s := by
  unfold trimRight
  induction sp using List.reverseRecOn with
  | nil => simp
  | append_singleton xs x ih =>
    rw [← List.append_assoc, List.rdropWhile_concat_pos _ _ x
      (h x (by simp))]
    exact ih fun c hc => h c (by simp [hc])

/-- Appending trailing whitespace does not change the full trim. -/
theorem goTrim_append_space {s sp : Str} (h : ∀ c ∈ sp, goIsSpace c = true) :
    goTrim (s ++ sp) = goTrim s := by
  unfold goTrim
  rw [trimRight_append_space h]

/-- Left trimming a right-trimmed list leaves it right-trimmed. -/
theorem trimRight_dropWhile_trimRight (s : Str) :
    trimRight ((trimRight s).dropWhile goIsSpace)
      = (trimRight s).dropWhile goIsSpace := by
  unfold trimRight
  by_cases hnil : (s.rdropWhile goIsSpace).dropWhile goIsSpace = []
  · rw [hnil]; simp
  · obtain ⟨a, ha⟩ : ∃ a,
        ((s.rdropWhile goIsSpace).dropWhile goIsSpace).getLast? = some a :=
      ⟨_, List.getLast?_eq_getLast _ hnil⟩
    rcases List.getLast?_eq_some_iff.mp ha with ⟨ys, hys⟩
    rcases List.dropWhile_suffix (l := s.rdropWhile goIsSpace) goIsSpace
      with ⟨t, ht⟩
    have hne : s.rdropWhile goIsSpace ≠ [] := by
      rw [← ht, hys]; simp
    have hylast : s.rdropWhile goIsSpace = (t ++ ys) ++ [a] := by
      rw [← ht, hys, List.append_assoc]
    have hnotp : ¬ goIsSpace a = true := by
      have h1 := List.rdropWhile_last_not goIsSpace s hne
      have h2 : (s.rdropWhile goIsSpace).getLast hne = a := by
        rw [List.getLast_eq_iff_getLast_eq_some, List.getLast?_eq_some_iff]
        exact ⟨t ++ ys, hylast⟩
      rwa [h2] at h1
    rw [hys, List.rdropWhile_concat_neg _ _ _ hnotp]

/-- strings.TrimSpace is idempotent. -/
theorem goTrim_idem (s : Str) : goTrim (goTrim s) = goTrim s := by
  unfold goTrim
  rw [trimRight_dropWhile_trimRight, List.dropWhile_idempotent]

/-- The trim of a string is an infix of it: the string is the trim surrounded
by (Go-)whitespace on both sides.  In particular trimming touches no internal
character, so internal newlines of the trimmed text are preserved. -/
theorem goTrim_infix (s : Str) :
    ∃ p q, s = p ++ goTrim s ++ q ∧
      (∀ c ∈ p, goIsSpace c = true) ∧ (∀ c ∈ q, goIsSpace c = true) := by
  refine ⟨(trimRight s).takeWhile goIsSpace, s.rtakeWhile goIsSpace, ?_, ?_, ?_⟩
  · have h1 : trimRight s ++ s.rtakeWhile goIsSpace = s := by
      unfold trimRight
      rw [List.rdropWhile, List.rtakeWhile, ← List.reverse_append,
        List.takeWhile_append_dropWhile, List.reverse_reverse]
    have h2 : (trimRight s).takeWhile goIsSpace ++ goTrim s = trimRight s := by
      unfold goTrim
      exact List.takeWhile_append_dropWhile _ _
    calc s = trimRight s ++ s.rtakeWhile goIsSpace := h1.symm
    _ = ((trimRight s).takeWhile goIsSpace ++ goTrim s)
          ++ s.rtakeWhile goIsSpace := by rw [h2]
    _ = (trimRight s).takeWhile goIsSpace ++ goTrim s
          ++ s.rtakeWhile goIsSpace := by rw [List.append_assoc]
  · intro c hc
    exact List.mem_takeWhile_imp hc
  · intro c hc
    exact List.mem_rtakeWhile_imp hc

/-! ## Tag parser (internal/agent/message_parser.go)

The Go file compiles three patterns:

* messagePattern, with dot-matches-newline: an opening tag
  `<message`, one or more whitespace characters, the attribute
  `to="..."` capturing one or more non-quote characters, then `>`, a lazily
  matched body, and the literal closing tag;
* broadcastPattern: the literal opening tag, a lazy body, the closing tag;
* donePattern: `<DONE`, optional whitespace, then the self-closing bracket.

At any given start position each pattern matches deterministically: the
greedy pieces are each followed by a character they can never match, and the
lazy body is the shortest run ending at the first occurrence of the closing
tag.  The scanners below implement exactly that, and the driving recursion
implements leftmost matching resuming after every (always nonempty) match.
-/

/-- A parsed directive (OutgoingMessage in message_parser.go). -/
structure OutgoingMessage where
  To : Str
  Content : Str
deriving DecidableEq, Repr

/-- Try to consume the literal `lit` at the front of `s`. -/
def litPref : Str → Str → Option Str
  | [], s => some s
  | _, [] => none
  | a :: as, c :: cs => if c = a then litPref as cs else none

/-- Scan for the first occurrence of the literal `close`; return the text
before it and the text after it.  `fuel` bounds the scan; `s.length + 1`
always suffices.  Models a lazy body followed by a literal closing tag. -/
def findLit : Nat → Str → Str → Option (Str × Str)
  | 0, _, _ => none
  | fuel + 1, close, s =>
    match litPref close s with
    | some rest => some ([], rest)
    | none =>
      match s with
      | [] => none
      | c :: cs => (findLit fuel close cs).map fun pr => (c :: pr.1, pr.2)

/-- Match messagePattern at the start of `s`; on success return the raw
captured id, the raw captured body, and the rest of the input. -/
def matchMessageAt (s : Str) : Option (Str × Str × Str) :=
  match litPref "<message".toList s with
  | none => none
  | some s1 =>
    let ws := s1.takeWhile isRE2Space
    let s2 := s1.dropWhile isRE2Space
    if ws.isEmpty then none
    else
      match litPref ("to=".toList ++ [qc]) s2 with
      | none => none
      | some s3 =>
        let id := s3.takeWhile (fun c => c ≠ qc)
        let s4 := s3.dropWhile (fun c => c ≠ qc)
        if id.isEmpty then none
        else
          match litPref (qc :: ">".toList) s4 with
          | none => none
          | some s5 =>
            match findLit (s5.length + 1) "</message>".toList s5 with
            | none => none
            | some (body, rest) => some (id, body, rest)

/-- Match broadcastPattern at the start of `s`; on success return the raw
captured body and the rest of the input. -/
def matchBroadcastAt (s : Str) : Option (Str × Str) :=
  match litPref "<broadcast>".toList s with
  | none => none
  | some s1 =>
    match findLit (s1.length + 1) "</broadcast>".toList s1 with
    | none => none
    | some (body, rest) => some (body, rest)

/-- Match donePattern at the start of `s`; on success return the rest. -/
def matchDoneAt (s : Str) : Option Str :=
  match litPref "<DONE".toList s with
  | none => none
  | some s1 => litPref "/>".toList (s1.dropWhile isRE2Space)

/-- All non-overlapping messagePattern matches in document order
(submatch pairs), scanning left to right.  Fuel `s.length` suffices
because every match consumes at least one character. -/
def findMsgMatches : Nat → Str → List (Str × Str)
  | 0, _ => []
  | _ + 1, [] => []
  | fuel + 1, c :: cs =>
    match matchMessageAt (c :: cs) with
    | some (id, body, rest) => (id, body) :: findMsgMatches fuel rest
    | none => findMsgMatches fuel cs

/-- All non-overlapping broadcastPattern matches in document order. -/
def findBcastMatches : Nat → Str → List Str
  | 0, _ => []
  | _ + 1, [] => []
  | fuel + 1, c :: cs =>
    match matchBroadcastAt (c :: cs) with
    | some (body, rest) => body :: findBcastMatches fuel rest
    | none => findBcastMatches fuel cs

/-- Whether messagePattern matches anywhere in `s`. -/
def hasMsgMatch : Nat → Str → Bool
  | 0, _ => false
  | _ + 1, [] => false
  | fuel + 1, c :: cs =>
    (matchMessageAt (c :: cs)).isSome || hasMsgMatch fuel cs

/-- Whether broadcastPattern matches anywhere in `s`. -/
def hasBcastMatch : Nat → Str → Bool
  | 0, _ => false
  | _ + 1, [] => false
  | fuel + 1, c :: cs =>
    (matchBroadcastAt (c :: cs)).isSome || hasBcastMatch fuel cs

/-- Whether donePattern matches anywhere in `s`. -/
def hasDoneMatch : Nat → Str → Bool
  | 0, _ => false
  | _ + 1, [] => false
  | fuel + 1, c :: cs =>
    (matchDoneAt (c :: cs)).isSome || hasDoneMatch fuel cs

/-- ReplaceAllString with messagePattern and the template
rewriting a direct message to a bracketed To line (raw submatches). -/
def replaceMsgs : Nat → Str → Str
  | 0, s => s
  | _ + 1, [] => []
  | fuel + 1, c :: cs =>
    match matchMessageAt (c :: cs) with
    | some (id, body, rest) =>
      "[To ".toList ++ id ++ "]: ".toList ++ body ++ replaceMsgs fuel rest
    | none => c :: replaceMsgs fuel cs

/-- ReplaceAllString with broadcastPattern and the bracketed Broadcast
template (raw submatch). -/
def replaceBcasts : Nat → Str → Str
  | 0, s => s
  | _ + 1, [] => []
  | fuel + 1, c :: cs =>
    match matchBroadcastAt (c :: cs) with
    | some (body, rest) =>
      "[Broadcast]: ".toList ++ body ++ replaceBcasts fuel rest
    | none => c :: replaceBcasts fuel cs

/-- ReplaceAllString with donePattern and the empty template. -/
def removeDone : Nat → Str → Str
  | 0, s => s
  | _ + 1, [] => []
  | fuel + 1, c :: cs =>
    match matchDoneAt (c :: cs) with
    | some rest => removeDone fuel rest
    | none => c :: removeDone fuel cs

/-- ParseOutgoingMessages: the direct-message pass followed by the broadcast
pass, each submatch trimmed (message_parser.go). -/
def parseOutgoingMessages (s : Str) : List OutgoingMessage :=
  ((findMsgMatches s.length s).map fun pr =>
    OutgoingMessage.mk (goTrim pr.1) (goTrim pr.2))
  ++ ((findBcastMatches s.length s).map fun body =>
    OutgoingMessage.mk "*".toList (goTrim body))

/-- ContainsDoneSignal (message_parser.go). -/
def containsDoneSignal (s : Str) : Bool :=
  hasDoneMatch s.length s

/-- StripMessageTags: rewrite direct messages, then broadcasts, then remove
DONE signals, then trim (message_parser.go). -/
def stripMessageTags (s : Str) : Str :=
  let r1 := replaceMsgs s.length s
  let r2 := replaceBcasts r1.length r1
  let r3 := removeDone r2.length r2
  goTrim r3

/-- The loop body of ExtractFinalOutput: strip a response and, when the
result is nonempty, append it to the builder followed by a blank line. -/
def extractStep (sb resp : Str) : Str :=
  let cleaned := stripMessageTags resp
  if cleaned.isEmpty then sb else sb ++ cleaned ++ "\n\n".toList

/-- ExtractFinalOutput: concatenate the stripped responses that are nonempty,
each followed by a blank line, then trim (message_parser.go). -/
def extractFinalOutput (conversation : List Str) : Str :=
  if conversation.isEmpty then []
  else goTrim (conversation.foldl extractStep [])

/-! ## Message channel (internal/memory)

All operations on the Go MessageChannel run under one lock, so each call is
one atomic state transition and the channel is modelled as a state with pure
transition functions.  The subscriber map is modelled as an association list
(Subscribe keeps keys unique); a subscriber inbox is its buffered queue plus
a unique creation token identifying the underlying Go channel object, so
that a close event can be attributed to one inbox object.  The
`closedTokens` field is the log of close events performed on inboxes; Go
panics when a channel is closed twice, so "no duplicate entry in
closedTokens" states that this never happens. -/

/-- ChannelMessage (memory package). -/
structure ChannelMessage where
  From : Str
  To : Str
  Content : Str
  Timestamp : Nat
deriving DecidableEq, Repr

/-- A subscriber inbox: the buffered Go channel holding undelivered
messages, tagged with a creation token identifying the channel object. -/
structure Inbox where
  token : Nat
  queue : List ChannelMessage
deriving DecidableEq, Repr

/-- The error returned by Send on a closed channel (errors.go). -/
inductive ChannelError where
  | channelClosed
deriving DecidableEq, Repr

/-- MessageChannel state (memory package). -/
structure MessageChannel where
  messages : List ChannelMessage
  subscribers : List (Str × Inbox)
  bufferSize : Nat
  closed : Bool
  nextToken : Nat
  closedTokens : List Nat
deriving DecidableEq, Repr

/-- NewMessageChannel: a buffer size of zero or less is replaced by 100. -/
def newMessageChannel (bufferSize : Int) : MessageChannel :=
  { messages := []
    subscribers := []
    bufferSize := if bufferSize ≤ 0 then 100 else bufferSize.toNat
    closed := false
    nextToken := 0
    closedTokens := [] }

/-- Non-blocking enqueue: append if the buffer has room, drop otherwise
(the select with a default branch in Send). -/
def tryEnqueue (cap : Nat) (ib : Inbox) (msg : ChannelMessage) : Inbox :=
  if ib.queue.length < cap then ⟨ib.token, ib.queue ++ [msg]⟩ else ib

/-- Look up a subscriber by agent id. -/
def lookupSub (subs : List (Str × Inbox)) (agentID : Str) : Option Inbox :=
  match subs with
  | [] => none
  | p :: rest => if p.1 = agentID then some p.2 else lookupSub rest agentID

/-- Send (memory package): reject when closed; otherwise append the message
to history, then deliver: a broadcast is offered to every subscriber except
the sender, a direct message to the addressee if subscribed; each delivery
is a non-blocking enqueue.  `now` stands for the wall-clock timestamp. -/
def sendMC (mc : MessageChannel) (frm dest content : Str) (now : Nat) :
    MessageChannel × Option ChannelError :=
  if mc.closed then (mc, some ChannelError.channelClosed)
  else
    let msg : ChannelMessage := ⟨frm, dest, content, now⟩
    let mc1 := { mc with messages := mc.messages ++ [msg] }
    if dest = "*".toList then
      ({ mc1 with subscribers := mc1.subscribers.map fun p =>
          if p.1 ≠ frm then (p.1, tryEnqueue mc1.bufferSize p.2 msg) else p },
       none)
    else
      ({ mc1 with subscribers := mc1.subscribers.map fun p =>
          if p.1 = dest then (p.1, tryEnqueue mc1.bufferSize p.2 msg) else p },
       none)

/-- Subscribe (memory package): return the existing inbox if present,
otherwise create a fresh one with the channel buffer size. -/
def subscribeMC (mc : MessageChannel) (agentID : Str) :
    MessageChannel × Inbox :=
  match lookupSub mc.subscribers agentID with
  | some ib => (mc, ib)
  | none =>
    let ib : Inbox := ⟨mc.nextToken, []⟩
    ({ mc with
        subscribers := mc.subscribers ++ [(agentID, ib)]
        nextToken := mc.nextToken + 1 },
     ib)

/-- Unsubscribe (memory package): if subscribed, close the inbox (recording
the close event) and remove the entry. -/
def unsubscribeMC (mc : MessageChannel) (agentID : Str) : MessageChannel :=
  match lookupSub mc.subscribers agentID with
  | some ib =>
    { mc with
        subscribers := mc.subscribers.filter fun p => p.1 ≠ agentID
        closedTokens := mc.closedTokens ++ [ib.token] }
  | none => mc

/-- Close (memory package): a second Close returns at once; the first sets
the flag, closes every subscriber inbox and clears the subscriber map. -/
def closeMC (mc : MessageChannel) : MessageChannel :=
  if mc.closed then mc
  else
    { mc with
        closed := true
        closedTokens := mc.closedTokens ++ mc.subscribers.map fun p => p.2.token
        subscribers := [] }

/-- GetHistory returns (a copy of) the history. -/
def getHistory (mc : MessageChannel) : List ChannelMessage :=
  mc.messages

/-- GetMessagesFor: history filtered to a recipient, broadcasts included. -/
def getMessagesFor (mc : MessageChannel) (agentID : Str) :
    List ChannelMessage :=
  mc.messages.filter fun m => m.To = agentID || m.To = "*".toList

/-- GetMessagesFrom: history filtered to a sender. -/
def getMessagesFrom (mc : MessageChannel) (agentID : Str) :
    List ChannelMessage :=
  mc.messages.filter fun m => m.From = agentID

/-- One externally invoked channel operation. -/
inductive ChannelOp where
  | subscribe (agentID : Str)
  | unsubscribe (agentID : Str)
  | close
  | send (frm dest content : Str) (now : Nat)
deriving DecidableEq, Repr

/-- Apply one operation to the channel state. -/
def applyOp (mc : MessageChannel) : ChannelOp → MessageChannel
  | ChannelOp.subscribe a => (subscribeMC mc a).1
  | ChannelOp.unsubscribe a => unsubscribeMC mc a
  | ChannelOp.close => closeMC mc
  | ChannelOp.send f t c n => (sendMC mc f t c n).1

/-- Run a sequence of operations from a given state. -/
def runOps (mc : MessageChannel) : List ChannelOp → MessageChannel
  | [] => mc
  | op :: rest => runOps (applyOp mc op) rest

/-! ## Configuration types and the validator (pkg/types, internal/parser)

Only the fields consumed by the embedded functions are carried.  The Go
field named Type is called `wtype` here because Type is a Lean keyword. -/

/-- Agent (pkg/types/agent.go); MaxTurns is a Go int and may be negative. -/
structure Agent where
  ID : Str
  Model : Str
  Instruction : Str
  Goal : Str
  Outputs : List Str
  Requires : List Str
  ListensTo : List Str
  MaxTurns : Int
  CanBroadcast : Bool
deriving DecidableEq, Repr

/-- GetPrompt (pkg/types/agent.go): the instruction, or the goal when the
instruction is empty. -/
def Agent.GetPrompt (a : Agent) : Str :=
  if a.Instruction.isEmpty then a.Goal else a.Instruction

/-- Step (pkg/types). -/
structure Step where
  Agent : Str
deriving DecidableEq, Repr

/-- WorkflowSpec (pkg/types); `wtype` is the Go field Type. -/
structure WorkflowSpec where
  wtype : Str
  Steps : List Step
  Branches : List Str
  Then : Option Step
  Collaborators : List Str
  MaxTurns : Int
deriving DecidableEq, Repr

/-- WorkflowConfig (pkg/types/config.go); the Models map is not consumed by
any embedded function and is omitted. -/
structure WorkflowConfig where
  Agents : List Agent
  Workflow : Option WorkflowSpec
deriving DecidableEq, Repr

/-- The agents loop of validate (internal/parser/validate.go): reject an
empty id or a duplicate id, otherwise collect the set of ids. -/
def checkAgents : List Agent → List Str → Except Str (List Str)
  | [], ids => Except.ok ids
  | a :: rest, ids =>
    if a.ID.isEmpty then Except.error "agent missing id".toList
    else if ids.contains a.ID then
      Except.error ("duplicate agent id: ".toList ++ a.ID)
    else checkAgents rest (ids ++ [a.ID])

/-- The first element of the list that is not a known agent id. -/
def firstUnknown (ids : List Str) : List Str → Option Str
  | [] => none
  | x :: xs => if ids.contains x then firstUnknown ids xs else some x

/-- validateWorkflow (internal/parser/validate.go): the type must be the
literal sequential or parallel; every agent referenced in steps, branches
and then must be known. -/
def validateWorkflow (wf : WorkflowSpec) (agentIDs : List Str) :
    Except Str Unit :=
  if wf.wtype ≠ "sequential".toList ∧ wf.wtype ≠ "parallel".toList then
    Except.error ("invalid workflow type: ".toList ++ wf.wtype)
  else
    match firstUnknown agentIDs (wf.Steps.map Step.Agent) with
    | some s => Except.error ("unknown agent in steps: ".toList ++ s)
    | none =>
      match firstUnknown agentIDs wf.Branches with
      | some b => Except.error ("unknown agent in branches: ".toList ++ b)
      | none =>
        match wf.Then with
        | some st =>
          if agentIDs.contains st.Agent then Except.ok ()
          else Except.error ("unknown agent in then: ".toList ++ st.Agent)
        | none => Except.ok ()

/-- validate (internal/parser/validate.go). -/
def validate (config : WorkflowConfig) : Except Str Unit :=
  if config.Agents.isEmpty then Except.error "no agents defined".toList
  else
    match checkAgents config.Agents [] with
    | Except.error e => Except.error e
    | Except.ok ids =>
      match config.Workflow with
      | some wf => validateWorkflow wf ids
      | none => Except.ok ()

/-! ## Single-shot agent runner (Runner.RunAgent)

The context store (internal/agent/context.go) is not among the provided
sources; only its call sites are.  It is modelled from the spec. -/

/-- Modelled from the spec: the ContextManager of internal/agent/context.go,
whose source is not provided.  Spec section 4.3: an append-only ordered log
of (agentId, output) pairs; AddOutput appends; GetContext concatenates all
entries formatted for prompt inclusion in insertion order (the exact format
is an implementation detail, so a simple format is chosen); GetLastOutput is
the output of the last entry, or empty if none. -/
structure ContextManager where
  entries : List (Str × Str)
deriving DecidableEq, Repr

/-- Modelled from the spec: AddOutput appends one (agentId, output) entry. -/
def addOutput (cm : ContextManager) (agentID output : Str) : ContextManager :=
  ⟨cm.entries ++ [(agentID, output)]⟩

/-- Modelled from the spec: GetContext concatenates the entries in insertion
order under an unspecified formatting. -/
def getContext (cm : ContextManager) : Str :=
  match cm.entries with
  | [] => []
  | _ => (cm.entries.map fun pr => pr.1 ++ ": ".toList ++ pr.2 ++ "\n".toList).flatten

/-- Modelled from the spec: GetLastOutput is the last output, or empty. -/
def getLastOutput (cm : ContextManager) : Str :=
  match cm.entries.getLast? with
  | some pr => pr.2
  | none => []

/-- The LLM client capability: Generate(prompt) gives a text or an error. -/
structure LLMClient where
  generate : Str → Except Str Str

/-- buildPrompt (Runner): the agent prompt, then a blank line and the
context when the context is non-empty. -/
def buildPrompt (cm : ContextManager) (a : Agent) : Str :=
  let prompt := a.GetPrompt
  let context := getContext cm
  if context.isEmpty then prompt else prompt ++ "\n\n".toList ++ context

/-- RunAgent (Runner): resolve the client by model name, build the prompt,
generate; on success record the response in the context store and return
it, on failure return the error and record nothing. -/
def runAgent (clients : Str → Option LLMClient) (cm : ContextManager)
    (a : Agent) : Except Str Str × ContextManager :=
  match clients a.Model with
  | none => (Except.error ("model not found: ".toList ++ a.Model), cm)
  | some client =>
    let prompt := buildPrompt cm a
    match client.generate prompt with
    | Except.error e =>
      (Except.error ("agent ".toList ++ a.ID ++ " failed: ".toList ++ e), cm)
    | Except.ok response => (Except.ok response, addOutput cm a.ID response)

/-! ## Collaborative turn loop (Runner.RunCollaborativeAgent)

The loop is embedded with the LLM client supplied as a turn-indexed oracle
(see the header); the prompt-building step only feeds that client and the
log, so it does not appear in the state.  Timestamps are the turn number.
The timing of the inbox drain (collection window, poll interval) is real
time and outside the embedding; the drain is modelled as taking everything
currently queued, filtered by ListensTo as in collectMessages. -/

/-- The default turn cap (DefaultMaxTurns = 100). -/
def defaultMaxTurns : Nat := 100

/-- The cap actually used by RunCollaborativeAgent: the agent MaxTurns, or
the default when that is zero or negative. -/
def effectiveMaxTurns (a : Agent) : Nat :=
  if a.MaxTurns ≤ 0 then defaultMaxTurns else a.MaxTurns.toNat

/-- containsString (part of collectMessages filtering). -/
def containsString (slice : List Str) (s : Str) : Bool :=
  slice.contains s

/-- collectMessages, state part: take every message currently queued in the
agent inbox (keeping those passing the ListensTo filter), leaving the inbox
empty. -/
def drainInbox (mc : MessageChannel) (agentID : Str) (listenTo : List Str) :
    List ChannelMessage × MessageChannel :=
  match lookupSub mc.subscribers agentID with
  | none => ([], mc)
  | some ib =>
    (ib.queue.filter fun m =>
        listenTo.isEmpty || containsString listenTo m.From,
     { mc with subscribers := mc.subscribers.map fun p =>
        if p.1 = agentID then (p.1, ⟨p.2.token, []⟩) else p })

/-- The routing step of a turn (step 4 of RunCollaborativeAgent): for each
parsed directive in order, skip a broadcast when the agent cannot
broadcast, otherwise Send; an error from Send stops the routing of the
remaining directives of this turn (the `break` leaves only this loop). -/
def routeOutgoing (mc : MessageChannel) (agentID : Str) (canBroadcast : Bool)
    (now : Nat) : List OutgoingMessage → MessageChannel
  | [] => mc
  | m :: rest =>
    if m.To = "*".toList ∧ ¬ canBroadcast then
      routeOutgoing mc agentID canBroadcast now rest
    else
      let res := sendMC mc agentID m.To m.Content now
      match res.2 with
      | some _ => res.1
      | none => routeOutgoing res.1 agentID canBroadcast now rest

/-- The observable outcome of the collaborative loop. -/
structure CollabResult where
  conversation : List Str
  channel : MessageChannel
  turnsExecuted : Nat
  genFailed : Bool
deriving DecidableEq, Repr

/-- The turn loop of RunCollaborativeAgent: while turns remain, collect
inbox messages, generate (client indexed by the turn number), record the
response, route its directives, and stop early on a DONE signal or a
generation error.  `remaining` counts down from the turn cap. -/
def collabTurns (client : Nat → Except Str Str) (agentID : Str)
    (canBroadcast : Bool) (listenTo : List Str) :
    Nat → Nat → MessageChannel → List Str → CollabResult
  | 0, turn, mc, conv => ⟨conv, mc, turn, false⟩
  | remaining + 1, turn, mc, conv =>
    let mc1 := (drainInbox mc agentID listenTo).2
    match client turn with
    | Except.error _ => ⟨conv, mc1, turn + 1, true⟩
    | Except.ok response =>
      let conv1 := conv ++ [response]
      let outgoing := parseOutgoingMessages response
      let mc2 := routeOutgoing mc1 agentID canBroadcast turn outgoing
      if containsDoneSignal response then ⟨conv1, mc2, turn + 1, false⟩
      else collabTurns client agentID canBroadcast listenTo
        remaining (turn + 1) mc2 conv1

/-- RunCollaborativeAgent: subscribe, run up to the effective turn cap,
then unsubscribe (the deferred call runs however the loop ended). -/
def runCollaborativeAgent (client : Nat → Except Str Str) (a : Agent)
    (mc : MessageChannel) : CollabResult :=
  let mc1 := (subscribeMC mc a.ID).1
  let res := collabTurns client a.ID a.CanBroadcast a.ListensTo
    (effectiveMaxTurns a) 0 mc1 []
  { res with channel := unsubscribeMC res.channel a.ID }

/-! ## Fuel adequacy

The scanners are written with explicit fuel; the lemmas below show that a
match always consumes at least one character, hence fuel equal to the input
length (as used by every entry point) already gives the fixed point: adding
fuel changes nothing.  This justifies reading the fuel-indexed functions as
the (total) leftmost-scan semantics of the Go regexp calls. -/

theorem litPref_length : ∀ {lit s t : Str}, litPref lit s = some t →
    t.length + lit.length = s.length := by
  intro lit
  induction lit with
  | nil =>
    intro s t h
    simp only [litPref] at h
    cases h
    simp
  | cons a as ih =>
    intro s t h
    cases s with
    | nil => simp [litPref] at h
    | cons c cs =>
      simp only [litPref] at h
      by_cases hc : c = a
      · rw [if_pos hc] at h
        have := ih h
        simp only [List.length_cons]
        omega
      · rw [if_neg hc] at h
        cases h

theorem findLit_length : ∀ (f : Nat) (close s b r : Str),
    findLit f close s = some (b, r) → r.length ≤ s.length := by
  intro f
  induction f with
  | zero =>
    intro close s b r h
    simp [findLit] at h
  | succ g ih =>
    intro close s b r h
    simp only [findLit] at h
    cases hp : litPref close s with
    | some rest =>
      rw [hp] at h
      obtain ⟨rfl, rfl⟩ : [] = b ∧ rest = r := by simpa using h
      have := litPref_length hp
      omega
    | none =>
      rw [hp] at h
      cases s with
      | nil => simp at h
      | cons c cs =>
        rcases Option.map_eq_some'.mp h with ⟨pr, hpr, heq⟩
        have hle := ih close cs pr.1 pr.2 (by rw [hpr])
        have hr : r = pr.2 := by
          have := congrArg Prod.snd heq
          simpa using this.symm
        rw [hr]
        simp only [List.length_cons]
        omega

theorem matchMessageAt_length {s i b r : Str}
    (h : matchMessageAt s = some (i, b, r)) : r.length < s.length := by
  unfold matchMessageAt at h
  cases h1 : litPref "<message".toList s with
  | none => rw [h1] at h; cases h
  | some s1 =>
    rw [h1] at h
    dsimp only at h
    by_cases hw : (s1.takeWhile isRE2Space).isEmpty
    · rw [if_pos hw] at h; cases h
    · rw [if_neg hw] at h
      cases h2 : litPref ("to=".toList ++ [qc]) (s1.dropWhile isRE2Space) with
      | none => rw [h2] at h; cases h
      | some s3 =>
        rw [h2] at h
        dsimp only at h
        by_cases hid : (s3.takeWhile fun c => c ≠ qc).isEmpty
        · rw [if_pos hid] at h; cases h
        · rw [if_neg hid] at h
          cases h3 : litPref (qc :: ">".toList)
              (s3.dropWhile fun c => c ≠ qc) with
          | none => rw [h3] at h; cases h
          | some s5 =>
            rw [h3] at h
            dsimp only at h
            cases h4 : findLit (s5.length + 1) "</message>".toList s5 with
            | none => rw [h4] at h; cases h
            | some pr =>
              obtain ⟨body, rest⟩ := pr
              rw [h4] at h
              have hr : r = rest := by
                have := congrArg (fun x => Prod.snd (Prod.snd x))
                  (Option.some.inj h)
                simpa using this.symm
              subst hr
              have e1 : s1.length + 8 = s.length := by
                have := litPref_length h1
                simpa using this
              have e2 : (s1.dropWhile isRE2Space).length ≤ s1.length :=
                (List.dropWhile_suffix isRE2Space).length_le
              have e3 : s3.length + 4 = (s1.dropWhile isRE2Space).length := by
                have := litPref_length h2
                simpa using this
              have e4 : (s3.dropWhile fun c => c ≠ qc).length ≤ s3.length :=
                (List.dropWhile_suffix _).length_le
              have e5 : s5.length + 2
                  = (s3.dropWhile fun c => c ≠ qc).length := by
                have := litPref_length h3
                simpa using this
              have e6 : r.length ≤ s5.length :=
                findLit_length _ _ _ _ _ h4
              omega

theorem matchBroadcastAt_length {s b r : Str}
    (h : matchBroadcastAt s = some (b, r)) : r.length < s.length := by
  unfold matchBroadcastAt at h
  cases h1 : litPref "<broadcast>".toList s with
  | none => rw [h1] at h; cases h
  | some s1 =>
    rw [h1] at h
    dsimp only at h
    cases h2 : findLit (s1.length + 1) "</broadcast>".toList s1 with
    | none => rw [h2] at h; cases h
    | some pr =>
      obtain ⟨body, rest⟩ := pr
      rw [h2] at h
      have hr : r = rest := by
        have := congrArg Prod.snd (Option.some.inj h)
        simpa using this.symm
      subst hr
      have e1 : s1.length + 11 = s.length := by
        have := litPref_length h1
        simpa using this
      have e2 : r.length ≤ s1.length := findLit_length _ _ _ _ _ h2
      omega

theorem findMsgMatches_fuel_irrel :
    ∀ (fuel fuel2 : Nat) (s : Str), s.length ≤ fuel → s.length ≤ fuel2 →
      findMsgMatches fuel s = findMsgMatches fuel2 s := by
  intro fuel
  induction fuel with
  | zero =>
    intro fuel2 s hs _
    have : s = [] := List.length_eq_zero.mp (Nat.le_zero.mp hs)
    subst this
    cases fuel2 <;> rfl
  | succ f ih =>
    intro fuel2 s hs hs2
    cases s with
    | nil => cases fuel2 <;> rfl
    | cons c cs =>
      cases fuel2 with
      | zero => simp at hs2
      | succ g =>
        cases hm : matchMessageAt (c :: cs) with
        | some tri =>
          obtain ⟨i, bo, r⟩ := tri
          have hr : r.length < (c :: cs).length := matchMessageAt_length hm
          have hstep1 : findMsgMatches (f + 1) (c :: cs)
              = (i, bo) :: findMsgMatches f r := by
            simp only [findMsgMatches, hm]
          have hstep2 : findMsgMatches (g + 1) (c :: cs)
              = (i, bo) :: findMsgMatches g r := by
            simp only [findMsgMatches, hm]
          rw [hstep1, hstep2, ih g r (by simp at hr hs ⊢; omega)
            (by simp at hr hs2 ⊢; omega)]
        | none =>
          have hstep1 : findMsgMatches (f + 1) (c :: cs)
              = findMsgMatches f cs := by
            simp only [findMsgMatches, hm]
          have hstep2 : findMsgMatches (g + 1) (c :: cs)
              = findMsgMatches g cs := by
            simp only [findMsgMatches, hm]
          rw [hstep1, hstep2, ih g cs (by simp at hs ⊢; omega)
            (by simp at hs2 ⊢; omega)]

theorem findBcastMatches_fuel_irrel :
    ∀ (fuel fuel2 : Nat) (s : Str), s.length ≤ fuel → s.length ≤ fuel2 →
      findBcastMatches fuel s = findBcastMatches fuel2 s := by
  intro fuel
  induction fuel with
  | zero =>
    intro fuel2 s hs _
    have : s = [] := List.length_eq_zero.mp (Nat.le_zero.mp hs)
    subst this
    cases fuel2 <;> rfl
  | succ f ih =>
    intro fuel2 s hs hs2
    cases s with
    | nil => cases fuel2 <;> rfl
    | cons c cs =>
      cases fuel2 with
      | zero => simp at hs2
      | succ g =>
        cases hm : matchBroadcastAt (c :: cs) with
        | some pr =>
          obtain ⟨bo, r⟩ := pr
          have hr : r.length < (c :: cs).length := matchBroadcastAt_length hm
          have hstep1 : findBcastMatches (f + 1) (c :: cs)
              = bo :: findBcastMatches f r := by
            simp only [findBcastMatches, hm]
          have hstep2 : findBcastMatches (g + 1) (c :: cs)
              = bo :: findBcastMatches g r := by
            simp only [findBcastMatches, hm]
          rw [hstep1, hstep2, ih g r (by simp at hr hs ⊢; omega)
            (by simp at hr hs2 ⊢; omega)]
        | none =>
          have hstep1 : findBcastMatches (f + 1) (c :: cs)
              = findBcastMatches f cs := by
            simp only [findBcastMatches, hm]
          have hstep2 : findBcastMatches (g + 1) (c :: cs)
              = findBcastMatches g cs := by
            simp only [findBcastMatches, hm]
          rw [hstep1, hstep2, ih g cs (by simp at hs ⊢; omega)
            (by simp at hs2 ⊢; omega)]

/-- Giving the parser entry point any surplus of fuel does not change its
result: the length fuel used by parseOutgoingMessages is already the fixed
point. -/
theorem parse_fuel_saturates (s : Str) (extra : Nat) :
    findMsgMatches (s.length + extra) s = findMsgMatches s.length s ∧
    findBcastMatches (s.length + extra) s = findBcastMatches s.length s :=
  ⟨findMsgMatches_fuel_irrel _ _ s (by omega) (by omega),
   findBcastMatches_fuel_irrel _ _ s (by omega) (by omega)⟩

/-! ## Channel lemmas and claims C1, C2, C7 -/

/-- Mapping a function that fixes every element of a list is the identity. -/
theorem map_eq_self_of_mem {α : Type} {f : α → α} {l : List α}
    (h : ∀ x ∈ l, f x = x) : l.map f = l := by
  induction l with
  | nil => rfl
  | cons x xs ih =>
    simp only [List.map_cons]
    rw [h x (by simp), ih fun y hy => h y (by simp [hy])]

/-- lookupSub finds a pair of the association list. -/
theorem lookupSub_mem {subs : List (Str × Inbox)} {agentID : Str} {ib : Inbox}
    (h : lookupSub subs agentID = some ib) : (agentID, ib) ∈ subs := by
  induction subs with
  | nil => simp [lookupSub] at h
  | cons p rest ih =>
    by_cases hp : p.1 = agentID
    · rw [lookupSub, if_pos hp] at h
      have hib : p.2 = ib := by injection h
      have hpq : (agentID, ib) = p := by rw [← hp, ← hib]
      rw [hpq]
      exact List.mem_cons_self p rest
    · rw [lookupSub, if_neg hp] at h
      exact List.mem_cons_of_mem p (ih h)

/-- C1: on an open channel, a direct send whose addressee inbox is full
succeeds, appends to history, and changes no inbox; the sender is not
blocked (sendMC is a total function returning this very state). -/
theorem send_full_inbox_drops (mc : MessageChannel)
    (frm dest content : Str) (now : Nat)
    (hopen : mc.closed = false) (hdir : dest ≠ "*".toList)
    (hfull : ∀ pr ∈ mc.subscribers, pr.1 = dest →
      pr.2.queue.length = mc.bufferSize) :
    sendMC mc frm dest content now
      = ({ mc with messages := mc.messages ++ [⟨frm, dest, content, now⟩] },
         none) := by
  unfold sendMC
  rw [hopen]
  simp only [Bool.false_eq_true, if_false, if_neg hdir]
  have hmap : mc.subscribers.map
      (fun p => if p.1 = dest
        then (p.1, tryEnqueue mc.bufferSize p.2 ⟨frm, dest, content, now⟩)
        else p) = mc.subscribers := by
    apply map_eq_self_of_mem
    intro p hp
    by_cases hpd : p.1 = dest
    · rw [if_pos hpd]
      unfold tryEnqueue
      rw [hfull p hp hpd]
      simp
    · rw [if_neg hpd]
  rw [hmap]

/-- The channel used in the C1 witness: buffer size one, a subscriber
already holding one message. -/
def mcC1 : MessageChannel :=
  { messages := [⟨"x".toList, "b".toList, "m0".toList, 0⟩]
    subscribers := [("b".toList, ⟨0, [⟨"x".toList, "b".toList, "m0".toList, 0⟩]⟩)]
    bufferSize := 1
    closed := false
    nextToken := 1
    closedTokens := [] }

/-- C1 witness: the theorem applied to a concrete full inbox. -/
theorem send_full_inbox_drops_witness :
    sendMC mcC1 "a".toList "b".toList "hi".toList 5
      = ({ mcC1 with
            messages := mcC1.messages
              ++ [⟨"a".toList, "b".toList, "hi".toList, 5⟩] },
         none) :=
  send_full_inbox_drops mcC1 "a".toList "b".toList "hi".toList 5
    rfl (by decide) (by decide)

/-- C2: a broadcast on an open channel succeeds, is appended to history, is
enqueued (space permitting) into the inbox of every subscriber other than
the sender, and leaves every inbox of the sender untouched. -/
theorem broadcast_send (mc : MessageChannel) (frm content : Str) (now : Nat)
    (hopen : mc.closed = false) :
    (sendMC mc frm "*".toList content now).2 = none ∧
    (sendMC mc frm "*".toList content now).1.messages
      = mc.messages ++ [⟨frm, "*".toList, content, now⟩] ∧
    ∀ pr ∈ mc.subscribers,
      (pr.1 = frm →
        pr ∈ (sendMC mc frm "*".toList content now).1.subscribers) ∧
      (pr.1 ≠ frm → pr.2.queue.length < mc.bufferSize →
        (pr.1, Inbox.mk pr.2.token
            (pr.2.queue ++ [⟨frm, "*".toList, content, now⟩]))
          ∈ (sendMC mc frm "*".toList content now).1.subscribers) ∧
      (pr.1 ≠ frm → ¬ pr.2.queue.length < mc.bufferSize →
        pr ∈ (sendMC mc frm "*".toList content now).1.subscribers) := by
  unfold sendMC
  rw [hopen]
  simp only [Bool.false_eq_true, if_false, if_pos rfl]
  refine ⟨rfl, rfl, ?_⟩
  intro pr hpr
  refine ⟨?_, ?_, ?_⟩
  · intro hfrm
    have : (fun p : Str × Inbox => if p.1 ≠ frm
        then (p.1, tryEnqueue mc.bufferSize p.2 ⟨frm, "*".toList, content, now⟩)
        else p) pr = pr := by
      simp [hfrm]
    exact this ▸ List.mem_map_of_mem _ hpr
  · intro hne hroom
    have : (fun p : Str × Inbox => if p.1 ≠ frm
        then (p.1, tryEnqueue mc.bufferSize p.2 ⟨frm, "*".toList, content, now⟩)
        else p) pr
        = (pr.1, Inbox.mk pr.2.token
            (pr.2.queue ++ [⟨frm, "*".toList, content, now⟩])) := by
      simp only [if_pos hne, tryEnqueue, hroom, if_true]
    exact this ▸ List.mem_map_of_mem _ hpr
  · intro hne hfull
    have : (fun p : Str × Inbox => if p.1 ≠ frm
        then (p.1, tryEnqueue mc.bufferSize p.2 ⟨frm, "*".toList, content, now⟩)
        else p) pr = pr := by
      simp only [if_pos hne, tryEnqueue, if_neg hfull]
    exact this ▸ List.mem_map_of_mem _ hpr

/-- The channel used in the C2 witness: the sender and two receivers, one
of them with a full inbox. -/
def mcC2 : MessageChannel :=
  { messages := []
    subscribers :=
      [("a".toList, ⟨0, []⟩),
       ("b".toList, ⟨1, []⟩),
       ("c".toList, ⟨2, [⟨"x".toList, "c".toList, "m".toList, 0⟩]⟩)]
    bufferSize := 1
    closed := false
    nextToken := 3
    closedTokens := [] }

/-- C2 witness: the theorem applied to a concrete broadcast; the sender
keeps an empty inbox, the receiver with room gets the message, the full
receiver keeps its queue. -/
theorem broadcast_send_witness :
    ("a".toList, Inbox.mk 0 [])
      ∈ (sendMC mcC2 "a".toList "*".toList "hey".toList 7).1.subscribers ∧
    ("b".toList, Inbox.mk 1 [⟨"a".toList, "*".toList, "hey".toList, 7⟩])
      ∈ (sendMC mcC2 "a".toList "*".toList "hey".toList 7).1.subscribers ∧
    ("c".toList, Inbox.mk 2 [⟨"x".toList, "c".toList, "m".toList, 0⟩])
      ∈ (sendMC mcC2 "a".toList "*".toList "hey".toList 7).1.subscribers := by
  have h := broadcast_send mcC2 "a".toList "hey".toList 7 rfl
  refine ⟨?_, ?_, ?_⟩
  · exact (h.2.2 ("a".toList, Inbox.mk 0 []) (by decide)).1 rfl
  · exact (h.2.2 ("b".toList, Inbox.mk 1 []) (by decide)).2.1
      (by decide) (by decide)
  · exact (h.2.2 ("c".toList,
        Inbox.mk 2 [⟨"x".toList, "c".toList, "m".toList, 0⟩])
        (by decide)).2.2 (by decide) (by decide)

/-- The tokens of the live subscriber inboxes. -/
def subTokens (mc : MessageChannel) : List Nat :=
  mc.subscribers.map fun p => p.2.token

/-- The channel invariant backing C7: close events are never duplicated,
live inboxes are not among the closed ones, live tokens are distinct, and
every token ever handed out is below the counter. -/
structure ChanInv (mc : MessageChannel) : Prop where
  closedNodup : mc.closedTokens.Nodup
  liveNotClosed : ∀ p ∈ mc.subscribers, p.2.token ∉ mc.closedTokens
  liveNodup : (subTokens mc).Nodup
  liveLt : ∀ p ∈ mc.subscribers, p.2.token < mc.nextToken
  closedLt : ∀ t ∈ mc.closedTokens, t < mc.nextToken

theorem chanInv_new (bufferSize : Int) :
    ChanInv (newMessageChannel bufferSize) := by
  constructor <;> simp [newMessageChannel, subTokens]

theorem chanInv_send (mc : MessageChannel) (frm dest content : Str)
    (now : Nat) (h : ChanInv mc) :
    ChanInv (sendMC mc frm dest content now).1 := by
  have key : ∀ (f : Str × Inbox → Str × Inbox),
      (∀ p, (f p).2.token = p.2.token) →
      ChanInv { mc with
        messages := mc.messages ++ [⟨frm, dest, content, now⟩]
        subscribers := mc.subscribers.map f } := by
    intro f hf
    constructor
    · exact h.closedNodup
    · intro p hp
      rcases List.mem_map.mp hp with ⟨q, hq, rfl⟩
      rw [hf q]
      exact h.liveNotClosed q hq
    · show ((mc.subscribers.map f).map fun p => p.2.token).Nodup
      rw [List.map_map]
      have : ((fun p : Str × Inbox => p.2.token) ∘ f)
          = fun p : Str × Inbox => p.2.token := by
        funext p
        exact hf p
      rw [this]
      exact h.liveNodup
    · intro p hp
      rcases List.mem_map.mp hp with ⟨q, hq, rfl⟩
      rw [hf q]
      exact h.liveLt q hq
    · exact h.closedLt
  unfold sendMC
  by_cases hc : mc.closed
  · rw [if_pos hc]
    exact h
  · rw [if_neg hc]
    by_cases hd : dest = "*".toList
    · rw [if_pos hd]
      apply key
      intro p
      by_cases hp : p.1 ≠ frm
      · rw [if_pos hp]
        unfold tryEnqueue
        split <;> rfl
      · rw [if_neg hp]
    · rw [if_neg hd]
      apply key
      intro p
      by_cases hp : p.1 = dest
      · rw [if_pos hp]
        unfold tryEnqueue
        split <;> rfl
      · rw [if_neg hp]

theorem chanInv_subscribe (mc : MessageChannel) (agentID : Str)
    (h : ChanInv mc) : ChanInv (subscribeMC mc agentID).1 := by
  cases hl : lookupSub mc.subscribers agentID with
  | some ib =>
    unfold subscribeMC
    rw [hl]
    exact h
  | none =>
    unfold subscribeMC
    rw [hl]
    dsimp only
    constructor
    · exact h.closedNodup
    · intro p hp
      rcases List.mem_append.mp hp with hp | hp
      · exact h.liveNotClosed p hp
      · simp only [List.mem_singleton] at hp
        subst hp
        intro hmem
        exact absurd (h.closedLt _ hmem) (by simp)
    · unfold subTokens
      dsimp only
      rw [List.map_append]
      refine List.Nodup.append h.liveNodup (by simp) ?_
      intro t ht
      simp only [List.map_cons, List.map_nil, List.mem_singleton]
      rcases List.mem_map.mp ht with ⟨q, hq, rfl⟩
      exact Nat.ne_of_lt (h.liveLt q hq)
    · intro p hp
      rcases List.mem_append.mp hp with hp | hp
      · exact Nat.lt_succ_of_lt (h.liveLt p hp)
      · simp only [List.mem_singleton] at hp
        subst hp
        exact Nat.lt_succ_self _
    · intro t ht
      exact Nat.lt_succ_of_lt (h.closedLt t ht)

theorem chanInv_unsubscribe (mc : MessageChannel) (agentID : Str)
    (h : ChanInv mc) : ChanInv (unsubscribeMC mc agentID) := by
  cases hl : lookupSub mc.subscribers agentID with
  | none =>
    unfold unsubscribeMC
    rw [hl]
    exact h
  | some ib =>
    unfold unsubscribeMC
    rw [hl]
    dsimp only
    have hmem : (agentID, ib) ∈ mc.subscribers := lookupSub_mem hl
    have hibtok : ib.token ∉ mc.closedTokens :=
      h.liveNotClosed (agentID, ib) hmem
    have hnd : (mc.subscribers.map fun p : Str × Inbox => p.2.token).Nodup :=
      h.liveNodup
    constructor
    · refine List.Nodup.append h.closedNodup (by simp) ?_
      intro t ht
      simp only [List.mem_singleton]
      intro heq
      subst heq
      exact hibtok ht
    · intro p hp
      have hpin : p ∈ mc.subscribers := List.mem_of_mem_filter hp
      have hpne : p.1 ≠ agentID := by
        have := List.of_mem_filter hp
        simpa using this
      intro hmem'
      rcases List.mem_append.mp hmem' with hc | hc
      · exact h.liveNotClosed p hpin hc
      · simp only [List.mem_singleton] at hc
        have hpq : p = (agentID, ib) :=
          List.inj_on_of_nodup_map hnd hpin hmem hc
        exact hpne (by rw [hpq])
    · have hsub : (List.map (fun p : Str × Inbox => p.2.token)
          (mc.subscribers.filter fun p => p.1 ≠ agentID)).Sublist
          (mc.subscribers.map fun p : Str × Inbox => p.2.token) :=
        List.Sublist.map _ (List.filter_sublist _)
      exact List.Nodup.sublist hsub hnd
    · intro p hp
      exact h.liveLt p (List.mem_of_mem_filter hp)
    · intro t ht
      rcases List.mem_append.mp ht with hc | hc
      · exact h.closedLt t hc
      · simp only [List.mem_singleton] at hc
        subst hc
        exact h.liveLt (agentID, ib) hmem

theorem chanInv_close (mc : MessageChannel) (h : ChanInv mc) :
    ChanInv (closeMC mc) := by
  unfold closeMC
  by_cases hc : mc.closed
  · rw [if_pos hc]
    exact h
  · rw [if_neg hc]
    constructor
    · refine List.Nodup.append h.closedNodup h.liveNodup ?_
      intro t ht htl
      rcases List.mem_map.mp htl with ⟨q, hq, rfl⟩
      exact h.liveNotClosed q hq ht
    · intro p hp
      simp at hp
    · simp [subTokens]
    · intro p hp
      simp at hp
    · intro t ht
      rcases List.mem_append.mp ht with hc2 | hc2
      · exact h.closedLt t hc2
      · rcases List.mem_map.mp hc2 with ⟨q, hq, rfl⟩
        exact h.liveLt q hq

theorem chanInv_runOps (mc : MessageChannel) (ops : List ChannelOp)
    (h : ChanInv mc) : ChanInv (runOps mc ops) := by
  induction ops generalizing mc with
  | nil => exact h
  | cons op rest ih =>
    apply ih
    cases op with
    | subscribe a => exact chanInv_subscribe mc a h
    | unsubscribe a => exact chanInv_unsubscribe mc a h
    | close => exact chanInv_close mc h
    | send f d c n => exact chanInv_send mc f d c n h

/-- C7: along every sequence of channel operations started from a fresh
channel, no inbox close event is ever duplicated (each inbox is closed at
most once), and Close is idempotent: a second Close is a no-op. -/
theorem close_at_most_once (ops : List ChannelOp) (bufferSize : Int) :
    (runOps (newMessageChannel bufferSize) ops).closedTokens.Nodup ∧
    ∀ mc : MessageChannel, closeMC (closeMC mc) = closeMC mc := by
  constructor
  · exact (chanInv_runOps _ ops (chanInv_new bufferSize)).closedNodup
  · intro mc
    by_cases hc : mc.closed
    · simp [closeMC, hc]
    · simp [closeMC, hc]

/-! ## Claims about the validator, the single-shot runner and the turn loop -/

/-- A well-formed one-agent configuration used to exercise the validator. -/
def agentA : Agent :=
  { ID := "a".toList, Model := "m".toList, Instruction := [], Goal := []
    Outputs := [], Requires := [], ListensTo := [], MaxTurns := 0
    CanBroadcast := false }

/-- The same configuration under the three workflow types. -/
def cfgWith (t : Str) : WorkflowConfig :=
  { Agents := [agentA]
    Workflow := some
      { wtype := t, Steps := [], Branches := [], Then := none
        Collaborators := ["a".toList], MaxTurns := 0 } }

/-- C6: the validator accepts the sequential and parallel types but rejects
the collaborative type on an otherwise perfectly well-formed configuration
(non-empty agents, unique non-empty ids, no dangling references): the code
contradicts the documented type set. -/
theorem validator_rejects_collaborative :
    validate (cfgWith "collaborative".toList)
      = Except.error ("invalid workflow type: collaborative".toList) ∧
    validate (cfgWith "sequential".toList) = Except.ok () ∧
    validate (cfgWith "parallel".toList) = Except.ok () :=
  ⟨rfl, rfl, rfl⟩

/-- C10: RunAgent leaves the context store unchanged exactly when it
returns an error, and appends exactly the entry (agent id, response) when
generation succeeds. -/
theorem runAgent_context (clients : Str → Option LLMClient)
    (cm : ContextManager) (a : Agent) :
    (∀ e, (runAgent clients cm a).1 = Except.error e →
      (runAgent clients cm a).2 = cm) ∧
    (∀ resp, (runAgent clients cm a).1 = Except.ok resp →
      (runAgent clients cm a).2.entries = cm.entries ++ [(a.ID, resp)]) := by
  cases hc : clients a.Model with
  | none =>
    unfold runAgent
    rw [hc]
    exact ⟨fun e h => rfl, fun resp h => absurd h (by simp)⟩
  | some client =>
    cases hg : client.generate (buildPrompt cm a) with
    | error e0 =>
      unfold runAgent
      rw [hc]
      dsimp only
      rw [hg]
      exact ⟨fun e h => rfl, fun resp h => absurd h (by simp)⟩
    | ok r =>
      unfold runAgent
      rw [hc]
      dsimp only
      rw [hg]
      refine ⟨fun e h => absurd h (by simp), fun resp h => ?_⟩
      have hr : r = resp := by
        simpa using h
      subst hr
      rfl

/-- The client map of the C10 witness. -/
def clientsC10 : Str → Option LLMClient :=
  fun m => if m = "m".toList
    then some ⟨fun _ => Except.ok "out".toList⟩ else none

/-- C10 witness: the successful branch of the theorem at a concrete run
starting from an empty store. -/
theorem runAgent_context_witness :
    (runAgent clientsC10 ⟨[]⟩ agentA).2.entries
      = [("a".toList, "out".toList)] := by
  have h := (runAgent_context clientsC10 ⟨[]⟩ agentA).2 "out".toList rfl
  simpa using h

/-- The turn counter of the loop never exceeds the starting turn plus the
remaining turn budget. -/
theorem collabTurns_le (client : Nat → Except Str Str) (agentID : Str)
    (canBroadcast : Bool) (listenTo : List Str) :
    ∀ (remaining turn : Nat) (mc : MessageChannel) (conv : List Str),
      (collabTurns client agentID canBroadcast listenTo
        remaining turn mc conv).turnsExecuted ≤ turn + remaining := by
  intro remaining
  induction remaining with
  | zero =>
    intro turn mc conv
    simp [collabTurns]
  | succ r ih =>
    intro turn mc conv
    unfold collabTurns
    cases hg : client turn with
    | error e =>
      dsimp only
      omega
    | ok response =>
      dsimp only
      by_cases hd : containsDoneSignal response
      · rw [if_pos hd]
        dsimp only
        omega
      · rw [if_neg hd]
        have hb := ih (turn + 1)
          (routeOutgoing (drainInbox mc agentID listenTo).2 agentID
            canBroadcast turn (parseOutgoingMessages response))
          (conv ++ [response])
        omega

/-- C9: the collaborative loop runs at most 100 turns when the agent
MaxTurns is zero or negative, and at most MaxTurns turns when positive. -/
theorem collaborative_turn_cap (client : Nat → Except Str Str) (a : Agent)
    (mc : MessageChannel) :
    (a.MaxTurns ≤ 0 →
      (runCollaborativeAgent client a mc).turnsExecuted ≤ 100) ∧
    (0 < a.MaxTurns →
      (runCollaborativeAgent client a mc).turnsExecuted ≤ a.MaxTurns.toNat) := by
  have hrw : (runCollaborativeAgent client a mc).turnsExecuted
      = (collabTurns client a.ID a.CanBroadcast a.ListensTo
          (effectiveMaxTurns a) 0 (subscribeMC mc a.ID).1 []).turnsExecuted :=
    rfl
  have hb := collabTurns_le client a.ID a.CanBroadcast a.ListensTo
    (effectiveMaxTurns a) 0 (subscribeMC mc a.ID).1 []
  constructor
  · intro h
    have heff : effectiveMaxTurns a = 100 := by
      simp [effectiveMaxTurns, defaultMaxTurns, h]
    rw [hrw, heff]
    rw [heff] at hb
    omega
  · intro h
    have heff : effectiveMaxTurns a = a.MaxTurns.toNat := by
      have hn : ¬ a.MaxTurns ≤ 0 := by omega
      simp [effectiveMaxTurns, hn]
    rw [hrw, heff]
    rw [heff] at hb
    omega

/-- The scripted client of the C9 witness: done at once. -/
def clientDone : Nat → Except Str Str :=
  fun _ => Except.ok "<DONE/>".toList

/-- C9 witness: the default-cap branch of the theorem at a concrete agent
whose MaxTurns is zero. -/
theorem collaborative_turn_cap_witness :
    (runCollaborativeAgent clientDone agentA
      (newMessageChannel 1)).turnsExecuted ≤ 100 :=
  (collaborative_turn_cap clientDone agentA (newMessageChannel 1)).1
    (by decide)

/-- The first-turn response of the C5 scenario: two direct directives. -/
def respC5 : Str :=
  "<message to=".toList ++ [qc] ++ "b".toList ++ [qc]
    ++ ">hi</message> and <message to=".toList ++ [qc] ++ "b".toList ++ [qc]
    ++ ">second</message>".toList

/-- The scripted client of the C5 scenario: directives on the first turn, a
plain response (no DONE signal) afterwards. -/
def clientC5 : Nat → Except Str Str :=
  fun n => if n = 0 then Except.ok respC5 else Except.ok "later turn".toList

/-- The C5 agent: two turns allowed, broadcasting permitted. -/
def agentC5 : Agent :=
  { ID := "a".toList, Model := "m".toList, Instruction := [], Goal := []
    Outputs := [], Requires := [], ListensTo := [], MaxTurns := 2
    CanBroadcast := true }

/-- A channel that is already closed, so that every Send of the scenario
returns the ChannelClosed error. -/
def mcClosedC5 : MessageChannel :=
  { messages := [], subscribers := [], bufferSize := 8, closed := true
    nextToken := 0, closedTokens := [] }

/-- C5: on the failing input (a closed channel, a first turn that tries to
route directives), Send returns ChannelClosed during routing of turn one,
yet the runner still executes the second turn and generates again: the
break leaves only the routing loop, not the turn loop, contradicting the
claimed (and intended) stop. -/
theorem closed_channel_turn_loop_continues :
    (sendMC (subscribeMC mcClosedC5 "a".toList).1 "a".toList "b".toList
      "hi".toList 0).2 = some ChannelError.channelClosed ∧
    (runCollaborativeAgent clientC5 agentC5 mcClosedC5).turnsExecuted = 2 ∧
    (runCollaborativeAgent clientC5 agentC5 mcClosedC5).conversation.length
      = 2 := by decide

/-! ## Claims about the tag parser: C3, C4, C8 -/

/-- C3: ParseOutgoingMessages is the direct-message pass (document order)
concatenated with the broadcast pass (document order), never interleaved;
every To and Content is the trim of the raw captured submatch, and trimming
only removes surrounding whitespace, so the interior of every body (its
newlines included) is preserved. -/
theorem parse_two_passes (s : Str) :
    (parseOutgoingMessages s
      = ((findMsgMatches s.length s).map fun pr =>
          OutgoingMessage.mk (goTrim pr.1) (goTrim pr.2))
        ++ ((findBcastMatches s.length s).map fun body =>
          OutgoingMessage.mk "*".toList (goTrim body)))
    ∧ (∀ m ∈ parseOutgoingMessages s, ∃ raw pre post,
        m.Content = goTrim raw ∧ raw = pre ++ m.Content ++ post ∧
        (∀ c ∈ pre, goIsSpace c = true) ∧
        (∀ c ∈ post, goIsSpace c = true)) := by
  refine ⟨rfl, ?_⟩
  intro m hm
  rcases List.mem_append.mp hm with hm | hm
  · rcases List.mem_map.mp hm with ⟨pr, hpr, rfl⟩
    rcases goTrim_infix pr.2 with ⟨pre, post, heq, hp, hs⟩
    exact ⟨pr.2, pre, post, rfl, heq, hp, hs⟩
  · rcases List.mem_map.mp hm with ⟨body, hbody, rfl⟩
    rcases goTrim_infix body with ⟨pre, post, heq, hp, hs⟩
    exact ⟨body, pre, post, rfl, heq, hp, hs⟩

/-- The mixed input of the specification scenario: a direct message, a
broadcast, another direct message. -/
def mixedInput : Str :=
  "<message to=".toList ++ [qc] ++ "x".toList ++ [qc]
    ++ ">one</message><broadcast>two</broadcast><message to=".toList
    ++ [qc] ++ "y".toList ++ [qc] ++ ">three</message>".toList

/-- Sanity check: the spec scenario parses to both direct messages before
the broadcast, in document order. -/
theorem parse_mixed_scenario :
    parseOutgoingMessages mixedInput
      = [OutgoingMessage.mk "x".toList "one".toList,
         OutgoingMessage.mk "y".toList "three".toList,
         OutgoingMessage.mk "*".toList "two".toList] := by decide

/-- The C4 counterexample input: a broadcast whose body ends mid-word so
that the rewrite splices the surrounding text into a new direct-message
tag. -/
def spliceInput : Str :=
  "<broadcast><mes</broadcast>sage to=".toList ++ [qc] ++ "a".toList
    ++ [qc] ++ ">x</message>".toList

/-- C4 counterexample: one application of StripMessageTags leaves a direct
message tag in its output (the broadcast rewrite spliced one together), and
a second application rewrites it again, so StripMessageTags is not
idempotent and its output can retain tags. -/
theorem strip_not_idempotent :
    stripMessageTags (stripMessageTags spliceInput)
      ≠ stripMessageTags spliceInput ∧
    hasMsgMatch (stripMessageTags spliceInput).length
      (stripMessageTags spliceInput) = true := by decide

/-- When no direct-message match exists anywhere, the rewrite pass is the
identity. -/
theorem replaceMsgs_of_no_match :
    ∀ (fuel : Nat) (s : Str), hasMsgMatch fuel s = false →
      replaceMsgs fuel s = s := by
  intro fuel
  induction fuel with
  | zero => intro s _; rfl
  | succ f ih =>
    intro s h
    cases s with
    | nil => rfl
    | cons c cs =>
      rw [hasMsgMatch] at h
      have h1 : (matchMessageAt (c :: cs)).isSome = false
          ∧ hasMsgMatch f cs = false := by simpa using h
      have hnone : matchMessageAt (c :: cs) = none :=
        Option.not_isSome_iff_eq_none.mp (by simp [h1.1])
      have hstep : replaceMsgs (f + 1) (c :: cs) = c :: replaceMsgs f cs := by
        simp only [replaceMsgs, hnone]
      rw [hstep, ih cs h1.2]

/-- When no broadcast match exists anywhere, the rewrite pass is the
identity. -/
theorem replaceBcasts_of_no_match :
    ∀ (fuel : Nat) (s : Str), hasBcastMatch fuel s = false →
      replaceBcasts fuel s = s := by
  intro fuel
  induction fuel with
  | zero => intro s _; rfl
  | succ f ih =>
    intro s h
    cases s with
    | nil => rfl
    | cons c cs =>
      rw [hasBcastMatch] at h
      have h1 : (matchBroadcastAt (c :: cs)).isSome = false
          ∧ hasBcastMatch f cs = false := by simpa using h
      have hnone : matchBroadcastAt (c :: cs) = none :=
        Option.not_isSome_iff_eq_none.mp (by simp [h1.1])
      have hstep : replaceBcasts (f + 1) (c :: cs)
          = c :: replaceBcasts f cs := by
        simp only [replaceBcasts, hnone]
      rw [hstep, ih cs h1.2]

/-- When no DONE match exists anywhere, the removal pass is the identity. -/
theorem removeDone_of_no_match :
    ∀ (fuel : Nat) (s : Str), hasDoneMatch fuel s = false →
      removeDone fuel s = s := by
  intro fuel
  induction fuel with
  | zero => intro s _; rfl
  | succ f ih =>
    intro s h
    cases s with
    | nil => rfl
    | cons c cs =>
      rw [hasDoneMatch] at h
      have h1 : (matchDoneAt (c :: cs)).isSome = false
          ∧ hasDoneMatch f cs = false := by simpa using h
      have hnone : matchDoneAt (c :: cs) = none :=
        Option.not_isSome_iff_eq_none.mp (by simp [h1.1])
      have hstep : removeDone (f + 1) (c :: cs) = c :: removeDone f cs := by
        simp only [removeDone, hnone]
      rw [hstep, ih cs h1.2]

/-- StripMessageTags written without its intermediate bindings. -/
theorem stripMessageTags_eq (s : Str) :
    stripMessageTags s
      = goTrim (removeDone
          (replaceBcasts (replaceMsgs s.length s).length
            (replaceMsgs s.length s)).length
          (replaceBcasts (replaceMsgs s.length s).length
            (replaceMsgs s.length s))) := rfl

/-- C4 amended: StripMessageTags is idempotent on every input whose first
application leaves no match of the three patterns in its output (the
counterexample shows this side condition is necessary: a rewrite can
splice surrounding text into a new tag). -/
theorem strip_idempotent_when_no_tags_remain (s : Str)
    (h1 : hasMsgMatch (stripMessageTags s).length (stripMessageTags s)
      = false)
    (h2 : hasBcastMatch (stripMessageTags s).length (stripMessageTags s)
      = false)
    (h3 : hasDoneMatch (stripMessageTags s).length (stripMessageTags s)
      = false) :
    stripMessageTags (stripMessageTags s) = stripMessageTags s := by
  rw [stripMessageTags_eq (stripMessageTags s)]
  rw [replaceMsgs_of_no_match _ _ h1]
  rw [replaceBcasts_of_no_match _ _ h2]
  rw [removeDone_of_no_match _ _ h3]
  calc goTrim (stripMessageTags s)
      = goTrim (goTrim (removeDone
          (replaceBcasts (replaceMsgs s.length s).length
            (replaceMsgs s.length s)).length
          (replaceBcasts (replaceMsgs s.length s).length
            (replaceMsgs s.length s)))) := by rw [← stripMessageTags_eq s]
  _ = goTrim (removeDone
          (replaceBcasts (replaceMsgs s.length s).length
            (replaceMsgs s.length s)).length
          (replaceBcasts (replaceMsgs s.length s).length
            (replaceMsgs s.length s))) := goTrim_idem _
  _ = stripMessageTags s := (stripMessageTags_eq s).symm

/-- C4 amended witness: the theorem applied to a tag-free input. -/
theorem strip_idempotent_witness :
    stripMessageTags (stripMessageTags "hello there".toList)
      = stripMessageTags "hello there".toList :=
  strip_idempotent_when_no_tags_remain "hello there".toList
    (by decide) (by decide) (by decide)

/-- Joining with a separator, as the claim C8 wording describes the
concatenation "separated by one blank line". -/
def joinSep (sep : Str) : List Str → Str
  | [] => []
  | [x] => x
  | x :: y :: ys => x ++ sep ++ joinSep sep (y :: ys)

/-- Following the claim C8 wording: the concatenation of StripMessageTags
applied to each response, consecutive results separated by one blank line,
the whole trimmed at the end. -/
def specExtractFinalOutput (conversation : List Str) : Str :=
  goTrim (joinSep "\n\n".toList (conversation.map stripMessageTags))

/-- The C8 counterexample conversation: the middle response strips to the
empty string. -/
def convC8 : List Str := ["a".toList, "<DONE/>".toList, "b".toList]

/-- C8 counterexample: when a response strips to empty, the code skips it
entirely, while the claimed formula still inserts its separators, so the
two differ. -/
theorem extract_skip_counterexample :
    extractFinalOutput convC8 ≠ specExtractFinalOutput convC8 ∧
    extractFinalOutput convC8 = "a\n\nb".toList ∧
    specExtractFinalOutput convC8 = "a\n\n\n\nb".toList := by decide

/-- The ExtractFinalOutput loop, unrolled: the builder ends up as the
flattened list of nonempty stripped responses each followed by the
separator. -/
theorem extract_fold (conv : List Str) : ∀ acc : Str,
    conv.foldl extractStep acc
      = acc ++ (((conv.map stripMessageTags).filter fun c => !c.isEmpty).map
          fun x => x ++ "\n\n".toList).flatten := by
  induction conv with
  | nil => intro acc; simp
  | cons r rest ih =>
    intro acc
    rw [List.foldl_cons]
    by_cases hc : (stripMessageTags r).isEmpty
    · rw [show extractStep acc r = acc from by simp [extractStep, hc]]
      rw [ih acc]
      simp [hc]
    · rw [show extractStep acc r
          = acc ++ stripMessageTags r ++ "\n\n".toList from by
        simp [extractStep, hc]]
      rw [ih (acc ++ stripMessageTags r ++ "\n\n".toList)]
      simp [hc, List.append_assoc]

/-- Flattening separator-terminated pieces is joining with the separator
followed by one final separator. -/
theorem flatten_map_sep (sep : Str) : ∀ l : List Str, l ≠ [] →
    (l.map fun x => x ++ sep).flatten = joinSep sep l ++ sep := by
  intro l
  induction l with
  | nil => intro h; exact absurd rfl h
  | cons x rest ih =>
    intro _
    cases rest with
    | nil => simp [joinSep]
    | cons y ys =>
      rw [List.map_cons, List.flatten_cons, ih (by simp)]
      simp [joinSep, List.append_assoc]

/-- C8 amended: ExtractFinalOutput is the concatenation of the nonempty
results of StripMessageTags over the responses, separated by one blank
line and trimmed at the end; responses whose stripped form is empty are
skipped (the counterexample makes the skipping necessary); the empty
conversation yields the empty string by the same equation. -/
theorem extract_skips_empty_stripped (conv : List Str) :
    extractFinalOutput conv
      = goTrim (joinSep "\n\n".toList
          ((conv.map stripMessageTags).filter fun c => !c.isEmpty)) := by
  cases conv with
  | nil => rfl
  | cons r rest =>
    have h1 : extractFinalOutput (r :: rest)
        = goTrim ((r :: rest).foldl extractStep []) := rfl
    rw [h1, extract_fold (r :: rest) [], List.nil_append]
    cases hF : ((r :: rest).map stripMessageTags).filter
        (fun c => !c.isEmpty) with
    | nil => rfl
    | cons z zs =>
      rw [flatten_map_sep _ _ (by simp), goTrim_append_space (by decide)]

end Orkflow
